import Mathlib

/-!
Verification of the chess-openings-analytics ingestion pipeline.

The development shallowly embeds the two source files:

* `src/etl/load.py`  — the Loader: `upsert_player`, `upsert_opening`,
  `insert_game`, `process_pgn` (the per-record body of its loop is
  `process_record` below, and the loop itself `process_pgn`).
* `src/etl/collector.py` — the Collector: `export_games`.

Python string primitives used by the source (`str.split`, `str.replace`,
`int(...)`, dict `.get`) are embedded first, at the `List Char` level where
reasoning is needed.  The relational store is embedded as explicit lists of
rows with serial primary keys; SQL `ON CONFLICT` clauses become the
corresponding match-and-update logic.
-/

namespace ChessETL

/-- Python `headers.get(k)`: first binding of key `k` in a key/value list
(header sets have unique keys, so first-match is dict semantics). -/
def hGet (hs : List (String × String)) (k : String) : Option String :=
  (hs.find? (fun p => p.1 = k)).map (fun p => p.2)

/-- Python `s.split(sep)` for a one-character separator `sep`: split at every
occurrence, keeping empty pieces.  Always returns a nonempty list. -/
def pySplitChar (sep : Char) : List Char → List (List Char)
  | [] => [[]]
  | c :: rest =>
    if c = sep then [] :: pySplitChar sep rest
    else
      match pySplitChar sep rest with
      | [] => [[c]]
      | t :: ts => (c :: t) :: ts

/-- Worker for Python `s.split()`: scan the characters keeping the
(reversed) token collected so far; whitespace closes the current token,
and an all-whitespace tail contributes nothing. -/
def pySplitWsAux : List Char → List Char → List (List Char)
  | [], acc => if acc.isEmpty then [] else [acc.reverse]
  | c :: rest, acc =>
    if c.isWhitespace then
      if acc.isEmpty then pySplitWsAux rest []
      else acc.reverse :: pySplitWsAux rest []
    else pySplitWsAux rest (c :: acc)

/-- Python `s.split()` (no argument): split on runs of whitespace, discarding
empty pieces; an all-whitespace string yields `[]`. -/
def pySplitWs (l : List Char) : List (List Char) :=
  pySplitWsAux l []

/-- Digits of a Python integer literal after the first digit: decimal digits
with single underscores allowed between digits (Python `int` grammar). -/
def pyDigitsAux : List Char → Nat → Option Nat
  | [], acc => some acc
  | c :: rest, acc =>
    if c.isDigit then pyDigitsAux rest (acc * 10 + (c.toNat - 48))
    else if c = '_' then
      match rest with
      | [] => none
      | d :: rest2 =>
        if d.isDigit then pyDigitsAux rest2 (acc * 10 + (d.toNat - 48))
        else none
    else none

/-- Digit run of a Python integer literal: at least one digit, underscores
only between digits. -/
def pyDigits : List Char → Option Nat
  | [] => none
  | c :: rest => if c.isDigit then pyDigitsAux rest (c.toNat - 48) else none

/-- Python `s.strip()`: drop surrounding whitespace. -/
def pyStrip (l : List Char) : List Char :=
  ((l.dropWhile Char.isWhitespace).reverse.dropWhile
    Char.isWhitespace).reverse

/-- Python `int(s)` on a string: strip surrounding whitespace, optional sign,
then a digit run.  `none` models the `ValueError` that `int` raises on any
other input. -/
def pyInt (s : String) : Option Int :=
  match pyStrip s.toList with
  | [] => none
  | c :: rest =>
    if c = '-' then (pyDigits rest).map (fun n => -(n : Int))
    else if c = '+' then (pyDigits rest).map (fun n => (n : Int))
    else (pyDigits (c :: rest)).map (fun n => (n : Int))

/-- Worker for Python `s.replace(pat, rep)` with a nonempty pattern
`p :: ps`: replace every non-overlapping occurrence, scanning left to
right.  The `skip` counter consumes the characters of a replacement that
was just matched (when `skip = 0` the scanner is looking for the next
occurrence). -/
def replaceAux (p : Char) (ps rep : List Char) : List Char → Nat → List Char
  | [], _ => []
  | _ :: rest, skip + 1 => replaceAux p ps rep rest skip
  | c :: rest, 0 =>
    if (p :: ps).isPrefixOf (c :: rest) then
      rep ++ replaceAux p ps rep rest ps.length
    else
      c :: replaceAux p ps rep rest 0

/-- Python `s.replace(pat, rep)` at the character-list level (an empty
`pat` is left as the identity; the source only replaces nonempty
literals). -/
def replaceL (pat rep : List Char) (l : List Char) : List Char :=
  match pat with
  | [] => l
  | p :: ps => replaceAux p ps rep l 0

/-- Python `s.replace(pat, rep)` on strings. -/
def pyReplace (s pat rep : String) : String :=
  (replaceL pat.toList rep.toList s.toList).asString

/-- `pat` occurs as a contiguous substring of `l` (Python `pat in s`). -/
def containsSub (pat : List Char) : List Char → Bool
  | [] => pat.isEmpty
  | c :: rest => pat.isPrefixOf (c :: rest) || containsSub pat rest

/-! ## Relational store (`src/db` schema as used by `src/etl/load.py`) -/

/-- A row of `players(player_id PK, username UNIQUE, highest_rating)`. -/
structure PlayerRow where
  player_id : Nat
  username : String
  highest_rating : Int
deriving DecidableEq

/-- A row of `openings(opening_id PK, eco UNIQUE, name, family)`. -/
structure OpeningRow where
  opening_id : Nat
  eco : String
  name : String
  family : String
deriving DecidableEq

/-- A row of the `games` table. -/
structure GameRow where
  game_id : String
  played_at : String
  white_id : Nat
  black_id : Nat
  white_rating : Int
  black_rating : Int
  winner : String
  termination : String
  ply_count : Nat
  opening_id : Nat
  rating_diff : Int
deriving DecidableEq

/-- The relational database state: the three tables plus the serial
sequences backing the two surrogate primary keys. -/
structure DB where
  players : List PlayerRow
  openings : List OpeningRow
  games : List GameRow
  next_player_id : Nat
  next_opening_id : Nat
deriving DecidableEq

/-- The empty database. -/
def DB.empty : DB := ⟨[], [], [], 0, 0⟩

/-! ## Loader (`src/etl/load.py`) -/

/-- `upsert_player` (load.py:15): `INSERT .. ON CONFLICT(username) DO UPDATE
SET highest_rating = GREATEST(existing, incoming) RETURNING player_id`.
Returns the player's id together with the updated database. -/
def upsert_player (db : DB) (username : String) (rating : Int) : Nat × DB :=
  match db.players.find? (fun p => p.username = username) with
  | some p =>
      (p.player_id,
       ⟨db.players.map (fun q =>
          if q.username = username then
            ⟨q.player_id, q.username, max q.highest_rating rating⟩
          else q),
        db.openings, db.games, db.next_player_id, db.next_opening_id⟩)
  | none =>
      (db.next_player_id,
       ⟨db.players ++ [⟨db.next_player_id, username, rating⟩],
        db.openings, db.games, db.next_player_id + 1, db.next_opening_id⟩)

/-- The family derivation of `upsert_opening` (load.py:29):
`name.split(":")[0] if ":" in name else name.split()[0]`.
`none` models the `IndexError` that `[0]` raises when `name.split()` is
empty (name without a colon that is empty or all whitespace); in the colon
branch `split(":")` is never empty, so `[0]` cannot fail there. -/
def family (name : String) : Option String :=
  if name.toList.contains ':' then
    ((pySplitChar ':' name.toList).head?).map List.asString
  else
    ((pySplitWs name.toList).head?).map List.asString

/-- `upsert_opening` (load.py:29): derive `family`, then `INSERT .. ON
CONFLICT (eco) DO UPDATE SET name = EXCLUDED.name RETURNING opening_id`.
On conflict only `name` is overwritten; the stored `family` (and `eco`)
stay as first recorded.  `none` models the family derivation raising. -/
def upsert_opening (db : DB) (eco : String) (name : String) :
    Option (Nat × DB) :=
  match family name with
  | none => none
  | some fam =>
    match db.openings.find? (fun o => o.eco = eco) with
    | some o =>
        some (o.opening_id,
          ⟨db.players,
           db.openings.map (fun q =>
             if q.eco = eco then ⟨q.opening_id, q.eco, name, q.family⟩ else q),
           db.games, db.next_player_id, db.next_opening_id⟩)
    | none =>
        some (db.next_opening_id,
          ⟨db.players,
           db.openings ++ [⟨db.next_opening_id, eco, name, fam⟩],
           db.games, db.next_player_id, db.next_opening_id + 1⟩)

/-- `insert_game` (load.py:43): `INSERT INTO games .. ON CONFLICT (game_id)
DO NOTHING` — a silent no-op when the external game id is already
present. -/
def insert_game (db : DB) (g : GameRow) : DB :=
  if db.games.any (fun q => q.game_id = g.game_id) then db
  else ⟨db.players, db.openings, db.games ++ [g], db.next_player_id,
        db.next_opening_id⟩

/-- One parsed game as delivered by the PGN parser collaborator
(`chess.pgn.read_game`): its header key/value set and the derived ply
count `game.end().ply()`. -/
structure Record where
  headers : List (String × String)
  ply_count : Nat
deriving DecidableEq

/-- The Loader's rating extraction (load.py:74):
`int(headers.get("WhiteElo", 0))`.  An absent header yields the integer
default `0`; a present header is passed to `int`, whose failure
(`ValueError` on an unparsable string) is modelled as `none`. -/
def extract_rating (hs : List (String × String)) (k : String) : Option Int :=
  match hGet hs k with
  | none => some 0
  | some s => pyInt s

/-- The Loader's external game id (load.py:83):
`headers.get("Site", "").split("/")[-1]` (the `split` result is never
empty, so `[-1]` cannot fail). -/
def gidOf (r : Record) : String :=
  ((pySplitChar '/' ((hGet r.headers "Site").getD "").toList).getLastD
    []).asString

/-- The Loader's result mapping (load.py:87):
`result.replace("1-0", "white").replace("0-1", "black")
       .replace("1/2-1/2", "draw")` — three chained Python substring
replacements. -/
def winnerOf (result : String) : String :=
  pyReplace (pyReplace (pyReplace result "1-0" "white") "0-1" "black")
    "1/2-1/2" "draw"

/-- The `game_dict` built by `process_pgn` (load.py:82) for one record,
given the resolved opening/player ids and the two extracted ratings. -/
def mkGameRow (r : Record) (oid wid bid : Nat) (wr br : Int) : GameRow :=
  ⟨gidOf r,
   (hGet r.headers "UTCDate").getD "1970.01.01" ++ " " ++
     (hGet r.headers "UTCTime").getD "00:00:00",
   wid, bid, wr, br,
   winnerOf ((hGet r.headers "Result").getD "*"),
   (hGet r.headers "Termination").getD "?",
   r.ply_count, oid, |wr - br|⟩

/-- The body of `process_pgn`'s loop (load.py:62-93) for one record:
upsert the Opening (family derivation may raise), extract both ratings
(`int` may raise), upsert both Players, then insert the Game row.
`none` models an uncaught exception aborting the record. -/
def process_record (db : DB) (r : Record) : Option DB :=
  match upsert_opening db ((hGet r.headers "ECO").getD "?")
      ((hGet r.headers "Opening").getD "Unknown") with
  | none => none
  | some (oid, db1) =>
    match extract_rating r.headers "WhiteElo",
          extract_rating r.headers "BlackElo" with
    | some wr, some br =>
      let w := upsert_player db1 ((hGet r.headers "White").getD "?") wr
      let b := upsert_player w.2 ((hGet r.headers "Black").getD "?") br
      some (insert_game b.2 (mkGameRow r oid w.1 b.1 wr br))
    | _, _ => none

/-- `process_pgn` (load.py:59): the Loader's loop over the stream of
parsed records, threading the database state; `none` models a record's
processing raising and aborting the run. -/
def process_pgn (db : DB) : List Record → Option DB
  | [] => some db
  | r :: rs =>
    match process_record db r with
    | none => none
    | some db2 => process_pgn db2 rs

/-! ## Collector (`src/etl/collector.py`) -/

/-- One run of the Collector's per-username loop (collector.py:30-48),
given the remote source as an oracle `fetch` from username to either an
API error (`berserk.exceptions.ResponseError`) or the streamed game
records.  Returns the lines written to the output file, the usernames
attempted (each is announced before its fetch), and the usernames whose
failure was logged and skipped. -/
def runCollect (fetch : String → Except String (List String)) :
    List String → List String × List String × List String
  | [] => ([], [], [])
  | u :: rest =>
    let done := runCollect fetch rest
    match fetch u with
    | Except.error _ => (done.1, u :: done.2.1, u :: done.2.2)
    | Except.ok gs => (gs ++ done.1, u :: done.2.1, done.2.2)

/-- `export_games` (collector.py:21): abort with `RuntimeError` when the
API token is absent; otherwise open the destination with mode `"w"`
(truncating whatever `prevFile` held before the run) and run the
per-username loop, writing each streamed record as one line.  The value
is the final content of the destination file. -/
def export_games (fetch : String → Except String (List String))
    (token : Option String) (usernames : List String)
    (_prevFile : List String) : Except String (List String) :=
  match token with
  | none => Except.error "LICHESS_API_TOKEN not set in environment or .env file"
  | some _ => Except.ok (runCollect fetch usernames).1

/-! ## Derived observations used in the statements -/

/-- The stored `highest_rating` of `u`, read back from the `players`
table. -/
def playerRating (db : DB) (u : String) : Option Int :=
  (db.players.find? (fun p => p.username = u)).map (fun p => p.highest_rating)

/-- The external game ids currently in the `games` table. -/
def gameIds (db : DB) : List String :=
  db.games.map (fun g => g.game_id)

/-- A record on which the Loader's per-record processing cannot raise:
its opening name admits a family and both rating headers are `int`-able
(or absent). -/
def record_ok (r : Record) : Prop :=
  (family ((hGet r.headers "Opening").getD "Unknown")).isSome ∧
  (extract_rating r.headers "WhiteElo").isSome ∧
  (extract_rating r.headers "BlackElo").isSome

/-- A sequence of player upserts applied left to right. -/
def applyUpserts (db : DB) (ops : List (String × Int)) : DB :=
  ops.foldl (fun d op => (upsert_player d op.1 op.2).2) db

/-- Modelled from the spec: the `family` derivation in the spec's words —
"the substring of `name` before a colon, or its first
whitespace-delimited token if no colon" (`none` when there is no colon
and no token). -/
def familySpec (name : String) : Option String :=
  if name.toList.contains ':' then
    some ((name.toList.takeWhile (fun c => c != ':')).asString)
  else
    match name.toList.dropWhile Char.isWhitespace with
    | [] => none
    | c :: rest =>
      some ((c :: rest.takeWhile (fun x => !x.isWhitespace)).asString)

/-- Whether the remote source rejects the fetch for `u`. -/
def fetchFailed (fetch : String → Except String (List String))
    (u : String) : Bool :=
  match fetch u with
  | Except.error _ => true
  | Except.ok _ => false

/-- The lines a username contributes to the output file: its streamed
records on success, nothing on a rejected fetch. -/
def fetchedLines (fetch : String → Except String (List String))
    (u : String) : List String :=
  match fetch u with
  | Except.error _ => []
  | Except.ok gs => gs

/-- A well-formed sample record (ratings 2200 / 2100). -/
def sampleRecord : Record :=
  ⟨[("ECO", "B90"), ("Opening", "Sicilian Defense: Najdorf"),
    ("White", "alice"), ("Black", "bob"),
    ("WhiteElo", "2200"), ("BlackElo", "2100"),
    ("Site", "https://lichess.org/abcd1234"), ("Result", "1-0"),
    ("UTCDate", "2021.05.01"), ("UTCTime", "12:00:00"),
    ("Termination", "Normal")], 40⟩

/-- A sample record whose `BlackElo` header is absent (white 2200). -/
def sampleRecordNoBlackElo : Record :=
  ⟨[("ECO", "A00"), ("Opening", "Polish Opening"),
    ("White", "alice"), ("Black", "bob"), ("WhiteElo", "2200"),
    ("Site", "https://lichess.org/wxyz9876"), ("Result", "0-1")], 12⟩

/-- A database holding one opening row, for exercising the conflict
branch of `upsert_opening`. -/
def openingTest : DB :=
  ⟨[], [⟨7, "B90", "Old Name", "Old"⟩], [], 0, 8⟩

/-- A remote-source oracle whose fetch fails for `"bob"` (an API error)
and streams one line for everyone else. -/
def sampleFetch (u : String) : Except String (List String) :=
  if u = "bob" then Except.error "429 Too Many Requests"
  else Except.ok [u]

/-! ## Lemmas on the embedded string primitives -/

theorem head?_pySplitChar (sep : Char) (l : List Char) :
    (pySplitChar sep l).head? = some (l.takeWhile (fun c => c != sep)) := by
  induction l with
  | nil => rfl
  | cons c rest ih =>
    by_cases hc : c = sep
    · subst hc
      simp [pySplitChar, List.takeWhile_cons]
    · cases hres : pySplitChar sep rest with
      | nil => rw [hres] at ih; simp at ih
      | cons t ts =>
        rw [hres] at ih
        simp at ih
        simp [pySplitChar, hc, hres, List.takeWhile_cons, ih]

theorem head?_pySplitWsAux (l acc : List Char) :
    (pySplitWsAux l acc).head? =
      (if acc.isEmpty then
        (match l.dropWhile Char.isWhitespace with
         | [] => none
         | c :: rest => some (c :: rest.takeWhile (fun x => !x.isWhitespace)))
       else some (acc.reverse ++ l.takeWhile (fun x => !x.isWhitespace))) := by
  induction l generalizing acc with
  | nil =>
    cases acc <;> simp [pySplitWsAux]
  | cons c rest ih =>
    by_cases hc : c.isWhitespace
    · cases acc with
      | nil => simp [pySplitWsAux, hc, List.dropWhile_cons, ih]
      | cons a as => simp [pySplitWsAux, hc, List.takeWhile_cons]
    · cases acc with
      | nil => simp [pySplitWsAux, hc, List.dropWhile_cons, ih,
          List.takeWhile_cons]
      | cons a as =>
        simp [pySplitWsAux, hc, ih, List.takeWhile_cons]

theorem head?_pySplitWs (l : List Char) :
    (pySplitWs l).head? =
      (match l.dropWhile Char.isWhitespace with
       | [] => none
       | c :: rest => some (c :: rest.takeWhile (fun x => !x.isWhitespace))) := by
  rw [pySplitWs, head?_pySplitWsAux]
  rfl

theorem replaceAux_no_occurrence (p : Char) (ps rep : List Char)
    (l : List Char) (h : containsSub (p :: ps) l = false) :
    replaceAux p ps rep l 0 = l := by
  induction l with
  | nil => rfl
  | cons c rest ih =>
    rw [containsSub] at h
    rw [Bool.or_eq_false_iff] at h
    rw [replaceAux]
    simp [h.1, ih h.2]

theorem pyReplace_no_occurrence (s pat rep : String)
    (h : containsSub pat.toList s.toList = false) :
    pyReplace s pat rep = s := by
  unfold pyReplace replaceL
  cases hp : pat.toList with
  | nil => exact String.asString_toList s
  | cons p ps =>
    rw [hp] at h
    show (replaceAux p ps rep.toList s.toList 0).asString = s
    rw [replaceAux_no_occurrence p ps rep.toList s.toList h]
    exact String.asString_toList s

/-! ## Claim theorems: result mapping, family derivation, empty names -/

/-- C3 counterexample: the source maps the result header with chained
Python substring replacements, so the Result string `"10-1"`, which is
none of the three literals, is stored as `"1black"`, not unchanged. -/
theorem winnerOf_mangles_other_strings :
    ("10-1" ≠ "1-0" ∧ "10-1" ≠ "0-1" ∧ "10-1" ≠ "1/2-1/2") ∧
    winnerOf "10-1" = "1black" ∧ winnerOf "10-1" ≠ "10-1" := by
  refine ⟨by decide, by decide, by decide⟩

/-- C3 (amended): the three literals map to `white` / `black` / `draw`,
and a Result string is stored unchanged whenever it contains none of the
three literals as a substring; a string that merely contains one of them
undergoes substring substitution instead of passing through. -/
theorem winnerOf_three_way_mapping (r : String)
    (h1 : containsSub "1-0".toList r.toList = false)
    (h2 : containsSub "0-1".toList r.toList = false)
    (h3 : containsSub "1/2-1/2".toList r.toList = false) :
    winnerOf "1-0" = "white" ∧ winnerOf "0-1" = "black" ∧
    winnerOf "1/2-1/2" = "draw" ∧ winnerOf r = r := by
  refine ⟨by decide, by decide, by decide, ?_⟩
  unfold winnerOf
  rw [pyReplace_no_occurrence r "1-0" "white" h1,
      pyReplace_no_occurrence r "0-1" "black" h2,
      pyReplace_no_occurrence r "1/2-1/2" "draw" h3]

theorem winnerOf_three_way_mapping_witness :
    containsSub "1-0".toList "*".toList = false ∧
    containsSub "0-1".toList "*".toList = false ∧
    containsSub "1/2-1/2".toList "*".toList = false ∧
    winnerOf "*" = "*" := by
  exact ⟨by decide, by decide, by decide,
    (winnerOf_three_way_mapping "*" (by decide) (by decide)
      (by decide)).2.2.2⟩

/-- C6: the family derivation agrees with the spec's description — the
substring before the (first) colon when the name has a colon, otherwise
its first whitespace-delimited token — and the two spec examples hold. -/
theorem family_matches_spec :
    (∀ name : String, family name = familySpec name) ∧
    family "Sicilian Defense: Najdorf" = some "Sicilian Defense" ∧
    family "English Opening" = some "English" := by
  refine ⟨fun name => ?_, by decide, by decide⟩
  unfold family familySpec
  by_cases hc : name.toList.contains ':'
  · rw [if_pos hc, if_pos hc, head?_pySplitChar]
    rfl
  · rw [if_neg hc, if_neg hc, head?_pySplitWs]
    cases name.toList.dropWhile Char.isWhitespace <;> rfl

/-- C10: on a record whose `Opening` header is present but empty (or all
whitespace) the `"Unknown"` default does not apply, the family
derivation raises (`name.split()[0]` on an empty token list), and the
per-record processing of the Loader fails: it is not total on
structurally well-formed records. -/
theorem family_fails_on_blank_name :
    hGet [("Opening", "")] "Opening" = some "" ∧
    family "" = none ∧ family "  " = none ∧
    process_record DB.empty ⟨[("Opening", "")], 0⟩ = none ∧
    process_record DB.empty ⟨[("Opening", "  ")], 0⟩ = none := by
  refine ⟨rfl, rfl, by decide, rfl, by decide⟩

/-! ## Lemmas on `upsert_player` -/

theorem find?_map_updPlayer (u u' : String) (r : Int) (ps : List PlayerRow) :
    (ps.map (fun q => if q.username = u then
        (⟨q.player_id, q.username, max q.highest_rating r⟩ : PlayerRow)
      else q)).find? (fun p => p.username = u') =
      (ps.find? (fun p => p.username = u')).map (fun q =>
        if q.username = u then
          (⟨q.player_id, q.username, max q.highest_rating r⟩ : PlayerRow)
        else q) := by
  induction ps with
  | nil => rfl
  | cons p rest ih =>
    simp only [List.map_cons, List.find?_cons]
    by_cases hp : p.username = u'
    · have h1 : (if p.username = u then
          (⟨p.player_id, p.username, max p.highest_rating r⟩ : PlayerRow)
          else p).username = u' := by
        by_cases hu : p.username = u
        · rw [if_pos hu]; exact hp
        · rw [if_neg hu]; exact hp
      rw [decide_eq_true h1, decide_eq_true hp]
      rfl
    · have h1 : ¬ (if p.username = u then
          (⟨p.player_id, p.username, max p.highest_rating r⟩ : PlayerRow)
          else p).username = u' := by
        by_cases hu : p.username = u
        · rw [if_pos hu]; exact hp
        · rw [if_neg hu]; exact hp
      rw [decide_eq_false h1, decide_eq_false hp]
      exact ih

theorem playerRating_upsert_none (db : DB) (u : String) (r : Int)
    (h : playerRating db u = none) :
    playerRating (upsert_player db u r).2 u = some r := by
  unfold playerRating at h ⊢
  unfold upsert_player
  cases hfind : db.players.find? (fun p => p.username = u) with
  | some p => rw [hfind] at h; simp at h
  | none =>
    rw [List.find?_append, hfind]
    have h1 : (⟨db.next_player_id, u, r⟩ : PlayerRow).username = u := rfl
    rw [List.find?_cons, decide_eq_true h1]
    rfl

theorem playerRating_upsert_some (db : DB) (u : String) (r h0 : Int)
    (h : playerRating db u = some h0) :
    playerRating (upsert_player db u r).2 u = some (max h0 r) := by
  unfold playerRating at h ⊢
  unfold upsert_player
  cases hfind : db.players.find? (fun p => p.username = u) with
  | none => rw [hfind] at h; simp at h
  | some p =>
    rw [hfind] at h
    simp at h
    have hpu : p.username = u := by
      have := List.find?_some hfind
      simpa using this
    rw [find?_map_updPlayer u u r db.players, hfind]
    simp [hpu, h]

theorem playerRating_upsert_other (db : DB) (u u' : String) (r : Int)
    (h : u' ≠ u) :
    playerRating (upsert_player db u r).2 u' = playerRating db u' := by
  unfold playerRating upsert_player
  cases hfind : db.players.find? (fun p => p.username = u) with
  | some p =>
    simp only [find?_map_updPlayer]
    cases hq : db.players.find? (fun p => p.username = u') with
    | none => simp
    | some q =>
      have hqu : q.username = u' := by
        have := List.find?_some hq
        simpa using this
      have : ¬ q.username = u := by rw [hqu]; exact h
      simp [this]
  | none =>
    simp [List.find?_append]
    have hne : ¬ (u = u') := fun he => h he.symm
    simp [hne]

theorem playerRating_applyUpserts_mono (ops : List (String × Int))
    (db : DB) (u : String) (h0 : Int)
    (h : playerRating db u = some h0) :
    ∃ h1, playerRating (applyUpserts db ops) u = some h1 ∧ h0 ≤ h1 := by
  induction ops generalizing db h0 with
  | nil => exact ⟨h0, h, le_refl h0⟩
  | cons op rest ih =>
    rw [applyUpserts, List.foldl_cons]
    rw [show List.foldl (fun d op => (upsert_player d op.1 op.2).2)
          ((upsert_player db op.1 op.2).2) rest
        = applyUpserts (upsert_player db op.1 op.2).2 rest from rfl]
    by_cases hu : u = op.1
    · have hstep : playerRating (upsert_player db op.1 op.2).2 u
          = some (max h0 op.2) := by
        rw [hu] at h ⊢
        exact playerRating_upsert_some db op.1 op.2 h0 h
      obtain ⟨h1, he, hle⟩ := ih _ _ hstep
      exact ⟨h1, he, le_trans (le_max_left h0 op.2) hle⟩
    · have hstep := playerRating_upsert_other db op.1 u op.2 hu
      rw [h] at hstep
      obtain ⟨h1, he, hle⟩ := ih _ _ hstep
      exact ⟨h1, he, hle⟩

/-- C2: the player-rating merge is a greatest-of merge: a player first
seen with ratings `r1` then `r2` (in either order) ends with
`highest_rating = max r1 r2`, and a stored `highest_rating` never
decreases across any further sequence of upserts. -/
theorem upsert_player_greatest_merge (db : DB) (u : String) (r1 r2 : Int)
    (hfresh : playerRating db u = none)
    (ops : List (String × Int)) (db' : DB) (u' : String) (h0 : Int)
    (hprev : playerRating db' u' = some h0) :
    playerRating (upsert_player (upsert_player db u r1).2 u r2).2 u
        = some (max r1 r2) ∧
    playerRating (upsert_player (upsert_player db u r2).2 u r1).2 u
        = some (max r1 r2) ∧
    ∃ h1, playerRating (applyUpserts db' ops) u' = some h1 ∧ h0 ≤ h1 := by
  refine ⟨?_, ?_, playerRating_applyUpserts_mono ops db' u' h0 hprev⟩
  · rw [playerRating_upsert_some _ _ _ _
      (playerRating_upsert_none db u r1 hfresh)]
  · rw [playerRating_upsert_some _ _ _ _
      (playerRating_upsert_none db u r2 hfresh), max_comm]

theorem find?_map_updOpening (eco newName : String)
    (os : List OpeningRow) :
    (os.map (fun q => if q.eco = eco then
        (⟨q.opening_id, q.eco, newName, q.family⟩ : OpeningRow)
      else q)).find? (fun o => o.eco = eco) =
      (os.find? (fun o => o.eco = eco)).map (fun q =>
        if q.eco = eco then
          (⟨q.opening_id, q.eco, newName, q.family⟩ : OpeningRow)
        else q) := by
  induction os with
  | nil => rfl
  | cons o rest ih =>
    simp only [List.map_cons, List.find?_cons]
    by_cases ho : o.eco = eco
    · have h1 : (if o.eco = eco then
          (⟨o.opening_id, o.eco, newName, o.family⟩ : OpeningRow)
          else o).eco = eco := by
        rw [if_pos ho]; exact ho
      rw [decide_eq_true h1, decide_eq_true ho]
      rfl
    · have h1 : ¬ (if o.eco = eco then
          (⟨o.opening_id, o.eco, newName, o.family⟩ : OpeningRow)
          else o).eco = eco := by
        rw [if_neg ho]; exact ho
      rw [decide_eq_false h1, decide_eq_false ho]
      exact ih

/-- C9: on an ECO conflict, `upsert_opening` returns the existing row's
id and overwrites only the `name` column of the conflicting row: the
stored `family` and `eco` are unchanged, all other opening rows are
untouched, no row is added, and the other tables are untouched. -/
theorem upsert_opening_conflict (db : DB) (eco newName fam : String)
    (row : OpeningRow)
    (hfind : db.openings.find? (fun o => o.eco = eco) = some row)
    (hfam : family newName = some fam) :
    ∃ db', upsert_opening db eco newName = some (row.opening_id, db') ∧
      db'.openings.find? (fun o => o.eco = eco)
          = some ⟨row.opening_id, row.eco, newName, row.family⟩ ∧
      (∀ q ∈ db.openings, ¬ q.eco = eco → q ∈ db'.openings) ∧
      db'.openings.length = db.openings.length ∧
      db'.players = db.players ∧ db'.games = db.games ∧
      db'.next_opening_id = db.next_opening_id := by
  unfold upsert_opening
  rw [hfam, hfind]
  refine ⟨_, rfl, ?_, ?_, ?_, rfl, rfl, rfl⟩
  · show (db.openings.map (fun q => if q.eco = eco then
        (⟨q.opening_id, q.eco, newName, q.family⟩ : OpeningRow)
      else q)).find? (fun o => o.eco = eco) = _
    rw [find?_map_updOpening eco newName db.openings, hfind]
    have hre : row.eco = eco := by
      have := List.find?_some hfind
      simpa using this
    simp [hre]
  · intro q hq hne
    exact List.mem_map.mpr ⟨q, hq, by rw [if_neg hne]⟩
  · simp

theorem upsert_opening_conflict_witness :
    openingTest.openings.find? (fun o => o.eco = "B90")
        = some ⟨7, "B90", "Old Name", "Old"⟩ ∧
    family "Sicilian Defense: Najdorf" = some "Sicilian Defense" ∧
    ∃ db', upsert_opening openingTest "B90" "Sicilian Defense: Najdorf"
        = some (7, db') ∧ db'.openings.length = openingTest.openings.length := by
  refine ⟨by decide, by decide, ?_⟩
  obtain ⟨db', h1, _, _, hlen, _⟩ :=
    upsert_opening_conflict openingTest "B90" "Sicilian Defense: Najdorf"
      "Sicilian Defense" ⟨7, "B90", "Old Name", "Old"⟩ (by decide) (by decide)
  exact ⟨db', h1, hlen⟩

theorem upsert_player_greatest_merge_witness :
    playerRating DB.empty "alice" = none ∧
    playerRating (applyUpserts DB.empty [("alice", 3)]) "alice" = some 3 ∧
    playerRating
      (upsert_player (upsert_player DB.empty "alice" 2).2 "alice" 5).2
      "alice" = some (max 2 5) := by
  refine ⟨rfl, rfl, ?_⟩
  exact (upsert_player_greatest_merge DB.empty "alice" 2 5 rfl []
    (applyUpserts DB.empty [("alice", 3)]) "alice" 3 rfl).1

/-! ## Frame lemmas and the shape of one processed record -/

theorem games_upsert_player (db : DB) (u : String) (r : Int) :
    (upsert_player db u r).2.games = db.games := by
  unfold upsert_player
  cases db.players.find? (fun p => p.username = u) <;> rfl

theorem upsert_opening_frame (db : DB) (eco name : String) (oid : Nat)
    (db' : DB) (h : upsert_opening db eco name = some (oid, db')) :
    db'.games = db.games := by
  unfold upsert_opening at h
  cases hf : family name with
  | none => rw [hf] at h; simp at h
  | some fam =>
    rw [hf] at h
    cases hfind : db.openings.find? (fun o => o.eco = eco) with
    | some o =>
      rw [hfind] at h
      simp at h
      rw [← h.2]
    | none =>
      rw [hfind] at h
      simp at h
      rw [← h.2]

theorem upsert_opening_family_isSome (db : DB) (eco name : String)
    (oid : Nat) (db' : DB)
    (h : upsert_opening db eco name = some (oid, db')) :
    (family name).isSome := by
  unfold upsert_opening at h
  cases hf : family name with
  | none => rw [hf] at h; simp at h
  | some fam => rfl

theorem upsert_opening_some_of_family (db : DB) (eco name fam : String)
    (h : family name = some fam) :
    ∃ oid db', upsert_opening db eco name = some (oid, db') := by
  unfold upsert_opening
  rw [h]
  cases hfind : db.openings.find? (fun o => o.eco = eco) with
  | some o => exact ⟨_, _, rfl⟩
  | none => exact ⟨_, _, rfl⟩

theorem insert_game_of_mem (db : DB) (g : GameRow)
    (h : g.game_id ∈ gameIds db) : insert_game db g = db := by
  unfold insert_game
  have hany : db.games.any (fun q => q.game_id = g.game_id) = true := by
    rw [List.any_eq_true]
    obtain ⟨q, hq, he⟩ := List.mem_map.mp h
    exact ⟨q, hq, by simp [he]⟩
  rw [if_pos hany]

theorem insert_game_of_not_mem (db : DB) (g : GameRow)
    (h : ¬ g.game_id ∈ gameIds db) :
    (insert_game db g).games = db.games ++ [g] := by
  unfold insert_game
  have hany : db.games.any (fun q => q.game_id = g.game_id) = false := by
    rw [Bool.eq_false_iff]
    intro hc
    rw [List.any_eq_true] at hc
    obtain ⟨q, hq, he⟩ := hc
    simp at he
    exact h (List.mem_map.mpr ⟨q, hq, he⟩)
  rw [if_neg (by simp [hany])]

theorem gameIds_insert_game (db : DB) (g : GameRow) :
    g.game_id ∈ gameIds (insert_game db g) ∧
    ∀ x ∈ gameIds db, x ∈ gameIds (insert_game db g) := by
  by_cases h : g.game_id ∈ gameIds db
  · rw [insert_game_of_mem db g h]
    exact ⟨h, fun x hx => hx⟩
  · have hg := insert_game_of_not_mem db g h
    unfold gameIds at h ⊢
    rw [hg]
    constructor
    · simp
    · intro x hx
      rw [List.map_append]
      exact List.mem_append_left _ hx

theorem process_record_shape (db : DB) (r : Record) (db' : DB)
    (h : process_record db r = some db') :
    ∃ oid wid bid wr br db3,
      extract_rating r.headers "WhiteElo" = some wr ∧
      extract_rating r.headers "BlackElo" = some br ∧
      (family ((hGet r.headers "Opening").getD "Unknown")).isSome ∧
      db3.games = db.games ∧
      db' = insert_game db3 (mkGameRow r oid wid bid wr br) := by
  unfold process_record at h
  cases ho : upsert_opening db ((hGet r.headers "ECO").getD "?")
      ((hGet r.headers "Opening").getD "Unknown") with
  | none => rw [ho] at h; simp at h
  | some p =>
    obtain ⟨oid, db1⟩ := p
    rw [ho] at h
    cases hw : extract_rating r.headers "WhiteElo" with
    | none => rw [hw] at h; simp at h
    | some wr =>
      rw [hw] at h
      cases hb : extract_rating r.headers "BlackElo" with
      | none => rw [hb] at h; simp at h
      | some br =>
        rw [hb] at h
        simp at h
        refine ⟨oid, _, _, wr, br, _, rfl, rfl,
          upsert_opening_family_isSome db _ _ oid db1 ho, ?_, h.symm⟩
        rw [games_upsert_player, games_upsert_player]
        exact upsert_opening_frame db _ _ oid db1 ho

theorem process_record_ok (db : DB) (r : Record) (db' : DB)
    (h : process_record db r = some db') : record_ok r := by
  obtain ⟨oid, wid, bid, wr, br, db3, hw, hb, hfam, _, _⟩ :=
    process_record_shape db r db' h
  exact ⟨hfam, by rw [hw]; rfl, by rw [hb]; rfl⟩

theorem process_record_total_of_ok (r : Record) (hok : record_ok r)
    (db : DB) : ∃ db', process_record db r = some db' := by
  obtain ⟨hfam, hw, hb⟩ := hok
  unfold process_record
  obtain ⟨fam, hfam'⟩ := Option.isSome_iff_exists.mp hfam
  obtain ⟨oid, db1, ho⟩ := upsert_opening_some_of_family db
    ((hGet r.headers "ECO").getD "?") _ fam hfam'
  rw [ho]
  obtain ⟨wr, hw'⟩ := Option.isSome_iff_exists.mp hw
  obtain ⟨br, hb'⟩ := Option.isSome_iff_exists.mp hb
  rw [hw', hb']
  exact ⟨_, rfl⟩

theorem process_record_gameIds (db : DB) (r : Record) (db' : DB)
    (h : process_record db r = some db') :
    (∀ x ∈ gameIds db, x ∈ gameIds db') ∧ gidOf r ∈ gameIds db' := by
  obtain ⟨oid, wid, bid, wr, br, db3, _, _, _, hg3, hdb'⟩ :=
    process_record_shape db r db' h
  have hids : gameIds db3 = gameIds db := by unfold gameIds; rw [hg3]
  obtain ⟨hmem, hsub⟩ := gameIds_insert_game db3 (mkGameRow r oid wid bid wr br)
  subst hdb'
  constructor
  · intro x hx
    exact hsub x (by rw [hids]; exact hx)
  · exact hmem

theorem process_record_noop (db : DB) (r : Record) (db' : DB)
    (h : process_record db r = some db') (hgid : gidOf r ∈ gameIds db) :
    db'.games = db.games := by
  obtain ⟨oid, wid, bid, wr, br, db3, _, _, _, hg3, hdb'⟩ :=
    process_record_shape db r db' h
  have hids : gameIds db3 = gameIds db := by unfold gameIds; rw [hg3]
  have : insert_game db3 (mkGameRow r oid wid bid wr br) = db3 := by
    apply insert_game_of_mem
    rw [hids]
    exact hgid
  rw [hdb', this, hg3]

/-! ## The Loader's loop -/

theorem process_pgn_gameIds_mono (f : List Record) (db db1 : DB)
    (h : process_pgn db f = some db1) :
    ∀ x ∈ gameIds db, x ∈ gameIds db1 := by
  induction f generalizing db with
  | nil =>
    unfold process_pgn at h
    simp at h
    subst h
    exact fun x hx => hx
  | cons r rs ih =>
    unfold process_pgn at h
    cases hpr : process_record db r with
    | none => rw [hpr] at h; simp at h
    | some db2 =>
      rw [hpr] at h
      intro x hx
      exact ih db2 h x ((process_record_gameIds db r db2 hpr).1 x hx)

theorem process_pgn_all_ids (f : List Record) (db db1 : DB)
    (h : process_pgn db f = some db1) :
    ∀ r ∈ f, gidOf r ∈ gameIds db1 ∧ record_ok r := by
  induction f generalizing db with
  | nil => simp
  | cons r rs ih =>
    unfold process_pgn at h
    cases hpr : process_record db r with
    | none => rw [hpr] at h; simp at h
    | some db2 =>
      rw [hpr] at h
      intro r' hr'
      rcases List.mem_cons.mp hr' with he | hm
      · subst he
        refine ⟨?_, process_record_ok db r' db2 hpr⟩
        exact process_pgn_gameIds_mono rs db2 db1 h _
          (process_record_gameIds db r' db2 hpr).2
      · exact ih db2 h r' hm

theorem process_pgn_noop (f : List Record) (db : DB)
    (hok : ∀ r ∈ f, record_ok r ∧ gidOf r ∈ gameIds db) :
    ∃ db2, process_pgn db f = some db2 ∧ db2.games = db.games := by
  induction f generalizing db with
  | nil => exact ⟨db, rfl, rfl⟩
  | cons r rs ih =>
    obtain ⟨hok_r, hgid⟩ := hok r (List.mem_cons_self r rs)
    obtain ⟨db2, hpr⟩ := process_record_total_of_ok r hok_r db
    have hgames : db2.games = db.games := process_record_noop db r db2 hpr hgid
    have hids : gameIds db2 = gameIds db := by unfold gameIds; rw [hgames]
    obtain ⟨db3, hrs, hg⟩ := ih db2 (fun r' hr' =>
      ⟨(hok r' (List.mem_cons_of_mem r hr')).1,
       by rw [hids]; exact (hok r' (List.mem_cons_of_mem r hr')).2⟩)
    refine ⟨db3, ?_, hg.trans hgames⟩
    unfold process_pgn
    rw [hpr]
    exact hrs

/-- C1: re-ingesting a game id already present is a silent no-op, never
an update, and loading the same record stream twice is idempotent on the
`games` table: a second load of the identical stream succeeds and leaves
the games rows — in particular the game count — exactly as after the
first load. -/
theorem load_idempotent_for_games (db : DB) (f : List Record) (db1 : DB)
    (h : process_pgn db f = some db1) :
    (∀ db0 g, g.game_id ∈ gameIds db0 → insert_game db0 g = db0) ∧
    ∃ db2, process_pgn db1 f = some db2 ∧ db2.games = db1.games ∧
      db2.games.length = db1.games.length := by
  refine ⟨fun db0 g hg => insert_game_of_mem db0 g hg, ?_⟩
  have hall := process_pgn_all_ids f db db1 h
  obtain ⟨db2, h2, hg⟩ := process_pgn_noop f db1 (fun r hr =>
    ⟨(hall r hr).2, (hall r hr).1⟩)
  exact ⟨db2, h2, hg, by rw [hg]⟩

theorem load_idempotent_for_games_witness :
    ∃ db1, process_pgn DB.empty [sampleRecord] = some db1 ∧
      ∃ db2, process_pgn db1 [sampleRecord] = some db2 ∧
        db2.games.length = db1.games.length := by
  cases h : process_pgn DB.empty [sampleRecord] with
  | none => exact absurd h (by decide)
  | some db1 =>
    obtain ⟨_, db2, h2, _, hlen⟩ :=
      load_idempotent_for_games DB.empty [sampleRecord] db1 h
    exact ⟨db1, rfl, db2, h2, hlen⟩

/-! ## Rating extraction and rating_diff -/

/-- C5 counterexample: a rating header that is present but unparsable is
not defaulted to 0 — `int(...)` raises, the extraction yields no value,
and the record's processing fails. -/
theorem extract_rating_unparsable_not_zero :
    hGet [("WhiteElo", "?")] "WhiteElo" = some "?" ∧
    extract_rating [("WhiteElo", "?")] "WhiteElo" = none ∧
    ¬ extract_rating [("WhiteElo", "?")] "WhiteElo" = some 0 ∧
    process_record DB.empty ⟨[("WhiteElo", "?")], 0⟩ = none := by
  exact ⟨rfl, rfl, by decide, rfl⟩

/-- C5 (amended): an absent rating header defaults to the integer 0, but
a present header is handed to `int` verbatim: an unparsable value makes
the extraction fail (`ValueError`) instead of defaulting to 0. -/
theorem extract_rating_default_only_when_absent
    (hs hs' : List (String × String)) (k k' s : String)
    (habs : hGet hs k = none) (hpres : hGet hs' k' = some s) :
    extract_rating hs k = some 0 ∧
    extract_rating hs' k' = pyInt s ∧
    extract_rating [("WhiteElo", "?")] "WhiteElo" = none := by
  refine ⟨?_, ?_, rfl⟩
  · unfold extract_rating; rw [habs]
  · unfold extract_rating; rw [hpres]

theorem extract_rating_default_only_when_absent_witness :
    hGet [("BlackElo", "1850")] "WhiteElo" = none ∧
    hGet [("WhiteElo", "2000")] "WhiteElo" = some "2000" ∧
    extract_rating [("BlackElo", "1850")] "WhiteElo" = some 0 ∧
    extract_rating [("WhiteElo", "2000")] "WhiteElo" = pyInt "2000" := by
  obtain ⟨h1, h2, _⟩ := extract_rating_default_only_when_absent
    [("BlackElo", "1850")] [("WhiteElo", "2000")] "WhiteElo" "WhiteElo"
    "2000" rfl rfl
  exact ⟨rfl, rfl, h1, h2⟩

/-- C7: the Game row inserted for a record carries
`rating_diff = |white_rating - black_rating|` over the post-default
ratings; concretely, ratings (2200, 2100) give 100 and a missing black
rating with white 2200 gives 2200 (the defaulted-0 edge case is kept,
not corrected). -/
theorem rating_diff_absolute (db : DB) (r : Record) (db' : DB)
    (wr br : Int)
    (hw : extract_rating r.headers "WhiteElo" = some wr)
    (hb : extract_rating r.headers "BlackElo" = some br)
    (h : process_record db r = some db')
    (hfresh : ¬ gidOf r ∈ gameIds db) :
    (∃ g, db'.games = db.games ++ [g] ∧ g.white_rating = wr ∧
        g.black_rating = br ∧ g.rating_diff = |wr - br|) ∧
    (∃ dbA, process_record DB.empty sampleRecord = some dbA ∧
        dbA.games.map (fun g => g.rating_diff) = [100]) ∧
    (∃ dbB, process_record DB.empty sampleRecordNoBlackElo = some dbB ∧
        extract_rating sampleRecordNoBlackElo.headers "BlackElo" = some 0 ∧
        dbB.games.map (fun g => g.rating_diff) = [2200]) := by
  refine ⟨?_,
    ⟨(process_record DB.empty sampleRecord).getD DB.empty, rfl, rfl⟩,
    ⟨(process_record DB.empty sampleRecordNoBlackElo).getD DB.empty,
      rfl, rfl, rfl⟩⟩
  obtain ⟨oid, wid, bid, wr', br', db3, hw', hb', _, hg3, hdb'⟩ :=
    process_record_shape db r db' h
  have hwr : wr' = wr := Option.some.inj (hw'.symm.trans hw)
  have hbr : br' = br := Option.some.inj (hb'.symm.trans hb)
  subst hdb'
  rw [← hwr, ← hbr]
  have hids : gameIds db3 = gameIds db := by unfold gameIds; rw [hg3]
  have hnot : ¬ (mkGameRow r oid wid bid wr' br').game_id ∈ gameIds db3 := by
    rw [hids]; exact hfresh
  refine ⟨mkGameRow r oid wid bid wr' br', ?_, rfl, rfl, rfl⟩
  rw [insert_game_of_not_mem db3 _ hnot, hg3]

theorem rating_diff_absolute_witness :
    extract_rating sampleRecord.headers "WhiteElo" = some 2200 ∧
    extract_rating sampleRecord.headers "BlackElo" = some 2100 ∧
    ¬ gidOf sampleRecord ∈ gameIds DB.empty ∧
    ∃ g, ((process_record DB.empty sampleRecord).getD DB.empty).games
        = DB.empty.games ++ [g] ∧ g.rating_diff = |(2200 : Int) - 2100| := by
  refine ⟨rfl, rfl, by decide, ?_⟩
  obtain ⟨⟨g, hg, _, _, hd⟩, _, _⟩ := rating_diff_absolute DB.empty
    sampleRecord ((process_record DB.empty sampleRecord).getD DB.empty)
    2200 2100 rfl rfl rfl (by decide)
  exact ⟨g, hg, hd⟩

/-! ## Collector properties -/

theorem runCollect_spec (fetch : String → Except String (List String))
    (us : List String) :
    (runCollect fetch us).2.1 = us ∧
    (runCollect fetch us).2.2 = us.filter (fetchFailed fetch) ∧
    (runCollect fetch us).1 = us.flatMap (fetchedLines fetch) := by
  induction us with
  | nil => exact ⟨rfl, rfl, rfl⟩
  | cons u rest ih =>
    obtain ⟨ih1, ih2, ih3⟩ := ih
    cases hf : fetch u with
    | error e =>
      simp [runCollect, hf, fetchFailed, fetchedLines, List.filter_cons,
        List.flatMap_cons, ih1, ih2, ih3]
    | ok gs =>
      simp [runCollect, hf, fetchFailed, fetchedLines, List.filter_cons,
        List.flatMap_cons, ih1, ih2, ih3]

/-- C8: per-entity failure isolation — whatever entity `x` fails (API
error `e`), every entity of the input, including those after `x`, is
still attempted, in input order; the failure is logged, `x` contributes
no lines, and the file holds exactly the successful entities' records in
input order. -/
theorem collector_failure_isolation
    (fetch : String → Except String (List String)) (us : List String)
    (x e : String) (hx : x ∈ us) (hfail : fetch x = Except.error e) :
    (runCollect fetch us).2.1 = us ∧
    x ∈ (runCollect fetch us).2.2 ∧
    fetchedLines fetch x = [] ∧
    (runCollect fetch us).1 = us.flatMap (fetchedLines fetch) := by
  obtain ⟨h1, h2, h3⟩ := runCollect_spec fetch us
  have hfl : fetchedLines fetch x = [] := by unfold fetchedLines; rw [hfail]
  refine ⟨h1, ?_, hfl, h3⟩
  rw [h2]
  refine List.mem_filter.mpr ⟨hx, ?_⟩
  unfold fetchFailed
  rw [hfail]

theorem collector_failure_isolation_witness :
    "bob" ∈ ["alice", "bob", "carol"] ∧
    sampleFetch "bob" = Except.error "429 Too Many Requests" ∧
    (runCollect sampleFetch ["alice", "bob", "carol"]).2.1
        = ["alice", "bob", "carol"] ∧
    "bob" ∈ (runCollect sampleFetch ["alice", "bob", "carol"]).2.2 ∧
    (runCollect sampleFetch ["alice", "bob", "carol"]).1
        = ["alice", "carol"] := by
  obtain ⟨h1, h2, _, _⟩ := collector_failure_isolation sampleFetch
    ["alice", "bob", "carol"] "bob" "429 Too Many Requests"
    (by decide) rfl
  exact ⟨by decide, rfl, h1, h2, by decide⟩

/-- C4 counterexample: the Collector opens its destination with mode
`"w"`, truncating it: a run over an empty entity list leaves the store
empty, erasing the record the file held before the run — earlier runs'
records are not preserved. -/
theorem export_games_truncates :
    export_games (fun u => Except.ok [u]) (some "token") [] ["old record"]
        = Except.ok [] ∧
    ¬ "old record" ∈ ([] : List String) := by
  exact ⟨rfl, by simp⟩

/-- C4 (amended): within one run every successfully streamed record is
written one per line in the order received, concatenated per entity in
input order; but the destination is opened in truncating write mode, so
the file after the run holds exactly this run's records, independent
of — and not preserving — its prior contents. -/
theorem export_games_run_content
    (fetch : String → Except String (List String)) (token : String)
    (usernames prev prev' : List String) :
    export_games fetch (some token) usernames prev
        = Except.ok (usernames.flatMap (fetchedLines fetch)) ∧
    export_games fetch (some token) usernames prev
        = export_games fetch (some token) usernames prev' := by
  constructor
  · unfold export_games
    rw [(runCollect_spec fetch usernames).2.2]
  · rfl

end ChessETL
